import Mathlib

/-!
Verification of the project bootstrap utility (core/scripts/bootstrap.py).

The Python code is shallowly embedded: Python strings become lists of
characters (abbreviated `Str`) or Lean `String` values, the string methods
used by the script (split, join, strip, lower, title, replace, membership
test) are modelled by executable Lean functions, and the effectful parts
(directory creation, downloads, manifest fetches, file writes, chmod) are
modelled as a trace of events produced relative to an environment `Env`
that decides which network and filesystem operations succeed.
-/

abbrev Str := List Char

def strOf (s : String) : Str := s.data

/-- Boolean test that the second list starts with the first list. -/
def leadsWith : Str → Str → Bool
  | [], _ => true
  | _ :: _, [] => false
  | a :: p, b :: s => a == b && leadsWith p s

/-- Attach a character to the front of the first chunk of a split result. -/
def consHead (c : Char) : List Str → List Str
  | [] => [[c]]
  | r :: rs => (c :: r) :: rs

/-- Python str.split with a one-character separator: splits at every
occurrence, keeping empty chunks, and maps the empty string to one
empty chunk. -/
def splitChar (sep : Char) : Str → List Str
  | [] => [[]]
  | c :: rest => if c = sep then [] :: splitChar sep rest else consHead c (splitChar sep rest)

/-- Python str.split with the two-character separator consisting of a
comma followed by a space, scanning left to right over non-overlapping
occurrences. -/
def splitCommaSpace : Str → List Str
  | [] => [[]]
  | [c] => [[c]]
  | c :: d :: rest =>
    if c = ',' ∧ d = ' ' then [] :: splitCommaSpace rest
    else consHead c (splitCommaSpace (d :: rest))

/-- Python sep.join over a list of strings. -/
def pyJoin (sep : Str) : List Str → Str
  | [] => []
  | [x] => x
  | x :: y :: rest => x ++ sep ++ pyJoin sep (y :: rest)

/-- The whitespace characters stripped by Python str.strip with no
argument. -/
def pySpace (c : Char) : Bool :=
  c == ' ' || c == '\t' || c == '\n' || c == '\r' || c == '\x0b' || c == '\x0c'

/-- Python str.strip with no argument. -/
def pyStripL (s : Str) : Str :=
  ((s.dropWhile pySpace).reverse.dropWhile pySpace).reverse

def pyStrip (s : String) : String := ⟨pyStripL s.data⟩

/-- Python str.lower, restricted to the ASCII case mapping. -/
def pyLower (s : Str) : Str := s.map Char.toLower

/-- Helper for the Python str.title case mapping; the flag records whether
the previous character was alphabetic. -/
def pyTitleAux : Bool → Str → Str
  | _, [] => []
  | prev, c :: rest =>
    if c.isAlpha then (if prev then c.toLower else c.toUpper) :: pyTitleAux true rest
    else c :: pyTitleAux false rest

/-- Python str.title, restricted to the ASCII case mapping. -/
def pyTitle (s : Str) : Str := pyTitleAux false s

/-- Python str.replace, scanning left to right over non-overlapping
occurrences of the pattern; the fuel argument bounds the recursion and is
instantiated with the length of the subject string. -/
def replaceFuel (old new : Str) : Nat → Str → Str
  | 0, s => s
  | _ + 1, [] => []
  | fuel + 1, c :: rest =>
    if old ≠ [] ∧ leadsWith old (c :: rest) then
      new ++ replaceFuel old new fuel ((c :: rest).drop old.length)
    else c :: replaceFuel old new fuel rest

def pyReplaceL (s old new : Str) : Str := replaceFuel old new s.length s

def pyReplace (s old new : String) : String := ⟨pyReplaceL s.data old.data new.data⟩

/-- Python substring membership test, as used by the in operator. -/
def isSubstr (needle : Str) : Str → Bool
  | [] => needle.isEmpty
  | c :: rest => leadsWith needle (c :: rest) || isSubstr needle rest

/-- The parent of a path in the sense of pathlib Path.parent: everything
before the last slash, or the current directory when there is no slash. -/
def parentOf (p : String) : String :=
  match p.data.reverse.dropWhile (fun c => c != '/') with
  | [] => "."
  | _ :: rest => ⟨rest.reverse⟩

/-- Joining with the pathlib slash operator: an absolute right operand
replaces the left operand. -/
def pathJoin (a b : String) : String :=
  match b.data with
  | '/' :: _ => b
  | _ => a ++ "/" ++ b

/-- The project configuration dictionary built by interactive_setup or by
main. The description key is optional because create_claude_md reads it
with a defaulted lookup. -/
structure Config where
  name : String
  type : String
  domains : List String
  description : Option String
deriving DecidableEq, Repr

/-- A domain manifest: its files field maps destination directories to
lists of file names, in insertion order. -/
structure Manifest where
  files : List (String × List String)
deriving DecidableEq, Repr

/-- Observable effects of one bootstrap run. -/
inductive Ev where
  | mkdirP (dir : String)
  | download (url : String) (dest : String)
  | fetchFail (path : String)
  | manifestFail (domain : String)
  | writeClaudeMd
  | writeGitignore
  | chmod (file : String) (mode : Nat)
deriving DecidableEq, Repr

/-- The environment a bootstrap run executes in: which parent-directory
creations succeed, which downloads succeed, which domain manifests are
available, and what the hooks directory contains at the end of the run. -/
structure Env where
  mkdirOk : String → Bool
  fetchOk : String → Bool
  manifest : String → Option Manifest
  hooksDirExists : Bool
  hookFiles : List String

def available_domains : List String := ["git", "python", "aws", "docker", "database"]

def project_types : List String :=
  ["Web API", "Data Pipeline", "CLI Tool", "Web Application", "Library/Package", "Custom"]

/-- ProjectBootstrap.fetch_domain_manifest: returns the parsed manifest or
None when the fetch or the parse fails. -/
def fetch_domain_manifest (env : Env) (domain : String) : Option Manifest :=
  env.manifest domain

/-- The body of the try block of ProjectBootstrap.fetch_file: create the
parent directories of the destination, then download the file. An error
result carries the events of the part of the body that did complete. -/
def fetchBody (env : Env) (base_url path dest : String) : Except (List Ev) (List Ev) :=
  if env.mkdirOk (parentOf dest) then
    if env.fetchOk path then
      Except.ok [Ev.mkdirP (parentOf dest), Ev.download (base_url ++ "/" ++ path) dest]
    else Except.error [Ev.mkdirP (parentOf dest)]
  else Except.error []

/-- ProjectBootstrap.fetch_file: runs the body, catches every exception,
and returns True exactly when the body completed. -/
def fetch_file (env : Env) (base_url path dest : String) : Bool × List Ev :=
  match fetchBody env base_url path dest with
  | Except.ok evs => (true, evs)
  | Except.error evs => (false, evs ++ [Ev.fetchFail path])

/-- ProjectBootstrap.apply_domain: fetch the domain manifest, and on
success fetch every file it lists; a failed manifest fetch returns False
without fetching anything, a failed file fetch is only warned about. -/
def apply_domain (env : Env) (base_url project_root domain : String) : Bool × List Ev :=
  match fetch_domain_manifest env domain with
  | none => (false, [Ev.manifestFail domain])
  | some m =>
    (true, m.files.flatMap (fun pr =>
      pr.2.flatMap (fun file_name =>
        (fetch_file env base_url
          (pyReplace ("domains/" ++ domain ++ "/" ++ pr.1 ++ "/" ++ file_name) "//" "/")
          (pathJoin (pathJoin project_root pr.1) file_name)).2)))

def markerL : Str := strOf "**Domains**: "

def defaultDescription : String := "A project following Claude Code best practices"

/-- One bullet of the Project Structure section of the rendered document. -/
def bulletLine (d : String) : Str :=
  strOf "- **" ++ pyTitle d.data ++ strOf "**: Domain-specific tooling and practices"

/-- The f-string template of ProjectBootstrap.create_claude_md, as the
list of its newline-separated pieces; the Project Structure hole is itself
a newline-joined block, and the template ends with a newline, hence the
final empty piece. -/
def mdSlots (cfg : Config) : List Str :=
  [ strOf "# Claude Code Project Context"
  , []
  , strOf "## Project Overview"
  , strOf "**Name**: " ++ cfg.name.data
  , strOf "**Type**: " ++ cfg.type.data
  , strOf "**Description**: " ++ (cfg.description.getD defaultDescription).data
  , []
  , strOf "## Technology Stack"
  , markerL ++ pyJoin (strOf ", ") (cfg.domains.map String.data)
  , []
  , strOf "## Development Principles"
  , strOf "- Follow domain-specific best practices"
  , strOf "- Use test-driven development (TDD)"
  , strOf "- Maintain clean, documented code"
  , strOf "- Infrastructure as Code where applicable"
  , []
  , strOf "## Project Structure"
  , strOf "This project uses modular Claude Code configuration with the following domains:"
  , pyJoin (strOf "\n") (cfg.domains.map bulletLine)
  , []
  , strOf "## Safety & Restrictions"
  , strOf "- File operations allowed within project directory only"
  , strOf "- Always prompt for configuration changes"
  , strOf "- No destructive operations outside project scope"
  , strOf "- All infrastructure changes through code, not CLI"
  , []
  , strOf "## Next Steps"
  , strOf "1. Review domain-specific documentation"
  , strOf "2. Run project setup: `make setup` or equivalent"
  , strOf "3. Start development with Claude Code"
  , strOf "4. Check TODO.md for current tasks"
  , []
  , strOf "## Memory Bank"
  , strOf "This project uses memory bank: `project-" ++
      pyReplaceL (pyLower cfg.name.data) (strOf " ") (strOf "-") ++ strOf "`"
  , [] ]

/-- ProjectBootstrap.create_claude_md: the full rendered document. -/
def create_claude_md (cfg : Config) : Str := pyJoin (strOf "\n") (mdSlots cfg)

/-- Re-parse of the rendered document as stated by the round-trip
property: split the document into lines, locate the Domains line by its
marker, drop the marker and split the remainder on comma-space. -/
def parse_domains (doc : Str) : Option (List String) :=
  match (splitChar '\n' doc).find? (fun l => leadsWith markerL l) with
  | none => none
  | some l => some ((splitCommaSpace (l.drop markerL.length)).map (fun w => (⟨w⟩ : String)))

def claudeMarker : Str := strOf "# Claude Code specific"

/-- The literal block written by ProjectBootstrap.create_gitignore. -/
def gitignore_content : Str :=
  strOf "# Claude Code specific\nTODO.md\nCLAUDE.local.md\n.claude/logs/\n.claude/session-history/\n\n# OS\n.DS_Store\n.DS_Store?\n._*\nThumbs.db\n\n# IDE\n.vscode/\n.idea/\n*.swp\n*.swo\n*~\n"

/-- ProjectBootstrap.create_gitignore as a function from the previous
content of the ignore file (none when the file does not exist) to its
content afterwards: a fresh file gets the block, an existing file without
the marker gets the block appended, and a file with the marker is left
unchanged. -/
def create_gitignore : Option Str → Str
  | none => gitignore_content
  | some existing =>
    if isSubstr claudeMarker existing then existing
    else existing ++ strOf "\n" ++ gitignore_content

def core_files : List String :=
  [ "core/.claude/settings.json"
  , "core/.claude/hooks/pre-tool-use-safety.py"
  , "core/.claude/hooks/project-boundary.py"
  , "core/.claude/commands/help.md" ]

/-- The core-configuration loop of setup_project: each core file is
fetched to the remote path with core/ removed by str.replace. -/
def coreSeg (env : Env) (base_url project_root : String) : List Ev :=
  core_files.flatMap (fun fp =>
    (fetch_file env base_url fp (pathJoin project_root (pyReplace fp "core/" ""))).2)

/-- The domain loop of setup_project. -/
def domainsSeg (env : Env) (base_url project_root : String) (ds : List String) : List Ev :=
  ds.flatMap (fun d => (apply_domain env base_url project_root d).2)

/-- The final chmod loop of setup_project over the glob of Python files in
the hooks directory. -/
def chmodSeg (env : Env) : List Ev :=
  if env.hooksDirExists then env.hookFiles.map (fun f => Ev.chmod f 0o755) else []

/-- ProjectBootstrap.setup_project: the event trace of one full setup run,
in program order. -/
def setup_project (env : Env) (base_url project_root : String) (cfg : Config) : List Ev :=
  [Ev.mkdirP (pathJoin project_root ".claude")] ++
  coreSeg env base_url project_root ++
  domainsSeg env base_url project_root cfg.domains ++
  [Ev.writeClaudeMd, Ev.writeGitignore] ++
  chmodSeg env

/-- Python truthiness defaulting, as in the expression args.type or word. -/
def pyOr (o : Option String) (dflt : String) : String :=
  match o with
  | none => dflt
  | some s => if s == "" then dflt else s

/-- The configuration built on the non-interactive branch of main. -/
def nonInteractiveConfig (name domainsArg : String) (typeArg : Option String) : Config :=
  { name := name
  , type := pyOr typeArg "Custom"
  , domains := "git" :: (splitChar ',' domainsArg.data).filterMap (fun d =>
      if pyStripL d = strOf "git" then none else some (⟨pyStripL d⟩ : String))
  , description := some ("A " ++ pyOr typeArg "custom" ++ " project") }

/-- The console answers consumed by one run of interactive_setup. The
type choice is modelled as the index finally accepted by the validation
loop. -/
structure UI where
  nameInput : String
  typeChoice : Fin project_types.length
  responses : String → String
  descInput : String

/-- The yes test of the domain prompt of interactive_setup. -/
def acceptsDomain (ui : UI) (d : String) : Bool :=
  let r := pyLower (pyStripL (ui.responses d).data)
  r = strOf "y" ∨ r = strOf "yes"

/-- ProjectBootstrap.interactive_setup: the configuration built from the
console answers; the default project name is the name of the working
directory. -/
def interactive_setup (defaultName : String) (ui : UI) : Config :=
  { name := if pyStrip ui.nameInput == "" then defaultName else pyStrip ui.nameInput
  , type := project_types.get ui.typeChoice
  , domains := "git" :: (available_domains.drop 1).filter (acceptsDomain ui)
  , description := some (pyStrip ui.descInput) }

/-- The branch condition of main: interactive mode runs when the flag is
given or when either of name and domains is missing or empty. -/
def runs_interactive (interactive : Bool) (name domains : Option String) : Bool :=
  match name, domains with
  | some n, some d => interactive || n == "" || d == ""
  | _, _ => true

/-- The configuration produced by the main function from the command-line arguments (named bootstrap_main here because Lean reserves the name main),
falling back to the interactive prompts when required. -/
def bootstrap_main (interactive : Bool) (name domains typeArg : Option String)
    (defaultName : String) (ui : UI) : Config :=
  match name, domains with
  | some n, some d =>
    if interactive || n == "" || d == "" then interactive_setup defaultName ui
    else nonInteractiveConfig n d typeArg
  | _, _ => interactive_setup defaultName ui

/-- Environment with the download of one path forced to fail. -/
def failFetchAt (env : Env) (p : String) : Env :=
  { env with fetchOk := fun q => if q = p then false else env.fetchOk q }

/-- Environment with the manifest of one domain forced to be missing. -/
def dropManifestAt (env : Env) (d0 : String) : Env :=
  { env with manifest := fun d => if d = d0 then none else env.manifest d }

/-- Two events agree up to the outcome of fetching one path: they are
equal, or both belong to a fetch of that path. -/
def FetchDelta (base_url p : String) (e e2 : Ev) : Prop :=
  e = e2 ∨ ∃ dest,
    (e = Ev.download (base_url ++ "/" ++ p) dest ∨ e = Ev.fetchFail p) ∧
    (e2 = Ev.download (base_url ++ "/" ++ p) dest ∨ e2 = Ev.fetchFail p)

lemma consHead_ne_nil (c : Char) (xs : List Str) : consHead c xs ≠ [] := by
  cases xs <;> simp [consHead]

lemma splitChar_ne_nil (sep : Char) (l : Str) : splitChar sep l ≠ [] := by
  cases l with
  | nil => simp [splitChar]
  | cons c rest =>
    simp only [splitChar]
    split
    · simp
    · exact consHead_ne_nil c _

lemma consHead_append (c : Char) (X Y : List Str) (h : X ≠ []) :
    consHead c (X ++ Y) = consHead c X ++ Y := by
  cases X with
  | nil => exact absurd rfl h
  | cons r rs => simp [consHead]

lemma splitChar_append_cons (sep : Char) (a t : Str) :
    splitChar sep (a ++ sep :: t) = splitChar sep a ++ splitChar sep t := by
  induction a with
  | nil => simp [splitChar]
  | cons c a2 ih =>
    by_cases hc : c = sep
    · subst hc
      simp [splitChar, ih]
    · have e1 : splitChar sep ((c :: a2) ++ sep :: t) =
          consHead c (splitChar sep (a2 ++ sep :: t)) := by
        simp [splitChar, hc]
      have e2 : splitChar sep (c :: a2) = consHead c (splitChar sep a2) := by
        simp [splitChar, hc]
      rw [e1, ih, consHead_append c _ _ (splitChar_ne_nil sep a2), e2]

lemma splitChar_pyJoin (sep : Char) (ls : List Str) (h : ls ≠ []) :
    splitChar sep (pyJoin [sep] ls) = ls.flatMap (splitChar sep) := by
  induction ls with
  | nil => exact absurd rfl h
  | cons x ls2 ih =>
    cases ls2 with
    | nil => simp [pyJoin]
    | cons y rest =>
      have : x ++ [sep] ++ pyJoin [sep] (y :: rest) = x ++ sep :: pyJoin [sep] (y :: rest) := by
        simp
      simp only [pyJoin, this, splitChar_append_cons, ih (by simp)]
      simp

lemma splitChar_eq_single (sep : Char) (l : Str) (h : sep ∉ l) :
    splitChar sep l = [l] := by
  induction l with
  | nil => rfl
  | cons c rest ih =>
    have hc : ¬ c = sep := fun e => h (e ▸ List.mem_cons_self c rest)
    have hr : sep ∉ rest := fun e => h (List.mem_cons_of_mem c e)
    simp [splitChar, hc, ih hr, consHead]

lemma splitCommaSpace_ne_nil (l : Str) : splitCommaSpace l ≠ [] := by
  cases l with
  | nil => simp [splitCommaSpace]
  | cons c rest =>
    cases rest with
    | nil => simp [splitCommaSpace]
    | cons d rest2 =>
      simp only [splitCommaSpace]
      split
      · simp
      · exact consHead_ne_nil c _

lemma splitCommaSpace_cons (c : Char) (l : Str) (hc : c ≠ ',') :
    splitCommaSpace (c :: l) = consHead c (splitCommaSpace l) := by
  cases l with
  | nil => simp [splitCommaSpace, consHead]
  | cons d rest =>
    have : ¬ (c = ',' ∧ d = ' ') := fun e => hc e.1
    simp [splitCommaSpace, this]

lemma splitCommaSpace_sep (a t : Str) (h : ',' ∉ a) :
    splitCommaSpace (a ++ ',' :: ' ' :: t) = a :: splitCommaSpace t := by
  induction a with
  | nil => simp [splitCommaSpace]
  | cons c a2 ih =>
    have hc : c ≠ ',' := fun e => h (e ▸ List.mem_cons_self c a2)
    have ha : ',' ∉ a2 := fun e => h (List.mem_cons_of_mem c e)
    rw [List.cons_append, splitCommaSpace_cons c _ hc, ih ha]
    simp [consHead]

lemma splitCommaSpace_no_comma (l : Str) (h : ',' ∉ l) : splitCommaSpace l = [l] := by
  induction l with
  | nil => rfl
  | cons c rest ih =>
    have hc : c ≠ ',' := fun e => h (e ▸ List.mem_cons_self c rest)
    have hr : ',' ∉ rest := fun e => h (List.mem_cons_of_mem c e)
    rw [splitCommaSpace_cons c rest hc, ih hr]
    simp [consHead]

lemma joinCS_roundtrip (ls : List Str) (h : ls ≠ []) (h2 : ∀ l ∈ ls, ',' ∉ l) :
    splitCommaSpace (pyJoin (strOf ", ") ls) = ls := by
  induction ls with
  | nil => exact absurd rfl h
  | cons x ls2 ih =>
    cases ls2 with
    | nil =>
      simp only [pyJoin]
      exact splitCommaSpace_no_comma x (h2 x (List.mem_cons_self x []))
    | cons y rest =>
      have hx : ',' ∉ x := h2 x (List.mem_cons_self x _)
      have hrest : ∀ l ∈ y :: rest, ',' ∉ l := fun l hl => h2 l (List.mem_cons_of_mem x hl)
      have hassoc : x ++ strOf ", " ++ pyJoin (strOf ", ") (y :: rest) =
          x ++ ',' :: ' ' :: pyJoin (strOf ", ") (y :: rest) := by
        simp [strOf]
      rw [pyJoin, hassoc, splitCommaSpace_sep x _ hx, ih (by simp) hrest]

lemma leadsWith_append_self (p t : Str) : leadsWith p (p ++ t) = true := by
  induction p with
  | nil => rfl
  | cons c p2 ih => simp [leadsWith, ih]

lemma leadsWith_of_append (m a b : Str) (h : leadsWith m (a ++ b) = true) :
    leadsWith (m.take a.length) a = true := by
  induction a generalizing m with
  | nil => simp [leadsWith]
  | cons x a2 ih =>
    cases m with
    | nil => simp [leadsWith]
    | cons c m2 =>
      simp only [List.cons_append, leadsWith, Bool.and_eq_true] at h
      simp only [List.length_cons, List.take_succ_cons, leadsWith, Bool.and_eq_true]
      exact ⟨h.1, ih m2 h.2⟩

lemma find?_skip {α : Type} (p : α → Bool) (l1 l2 : List α) (h : ∀ x ∈ l1, p x = false) :
    (l1 ++ l2).find? p = l2.find? p := by
  induction l1 with
  | nil => rfl
  | cons x l ih =>
    rw [List.cons_append, List.find?_cons_of_neg _ (by simp [h x (List.mem_cons_self x l)]),
      ih (fun y hy => h y (List.mem_cons_of_mem x hy))]

lemma mem_pyJoin (sep : Str) (ls : List Str) (c : Char) (h : c ∈ pyJoin sep ls) :
    c ∈ sep ∨ ∃ l ∈ ls, c ∈ l := by
  induction ls with
  | nil => simp [pyJoin] at h
  | cons x ls2 ih =>
    cases ls2 with
    | nil =>
      right
      exact ⟨x, List.mem_cons_self x [], h⟩
    | cons y rest =>
      simp only [pyJoin, List.append_assoc, List.mem_append] at h
      rcases h with hx | hs | hj
      · right
        exact ⟨x, List.mem_cons_self x _, hx⟩
      · left
        exact hs
      · rcases ih hj with hs | ⟨l, hl, hc⟩
        · left
          exact hs
        · right
          exact ⟨l, List.mem_cons_of_mem x hl, hc⟩

lemma isSubstr_append_right (n s t : Str) (h : isSubstr n t = true) :
    isSubstr n (s ++ t) = true := by
  induction s with
  | nil => exact h
  | cons c s2 ih => simp [isSubstr, ih]

lemma marker_in_gitignore : isSubstr claudeMarker gitignore_content = true := by decide

/-- C3: running create_gitignore twice from any starting state yields the
same content as running it once; the second run sees the Claude marker and
leaves the file unchanged, so the block is never duplicated. -/
theorem claim_C3 (st : Option Str) :
    create_gitignore (some (create_gitignore st)) = create_gitignore st := by
  cases st with
  | none =>
    show create_gitignore (some gitignore_content) = gitignore_content
    simp [create_gitignore, marker_in_gitignore]
  | some ex =>
    by_cases h : isSubstr claudeMarker ex = true
    · simp [create_gitignore, h]
    · have h2 : isSubstr claudeMarker ex = false := by
        simpa using h
      have hstep : create_gitignore (some ex) = ex ++ strOf "\n" ++ gitignore_content := by
        simp [create_gitignore, h2]
      have hin : isSubstr claudeMarker (ex ++ strOf "\n" ++ gitignore_content) = true :=
        isSubstr_append_right claudeMarker (ex ++ strOf "\n") gitignore_content
          marker_in_gitignore
      rw [hstep]
      show (if isSubstr claudeMarker (ex ++ strOf "\n" ++ gitignore_content) = true then
          ex ++ strOf "\n" ++ gitignore_content
        else (ex ++ strOf "\n" ++ gitignore_content) ++ strOf "\n" ++ gitignore_content) =
        ex ++ strOf "\n" ++ gitignore_content
      exact if_pos hin

/-- C9: create_gitignore never rewrites existing content; when the file
exists the result is either identical to the old content (the marker is
already present) or extends the old content by a nonempty suffix. -/
theorem claim_C9 (ex : Str) :
    (isSubstr claudeMarker ex = true ∧ create_gitignore (some ex) = ex) ∨
    (isSubstr claudeMarker ex = false ∧
      ∃ t, t ≠ [] ∧ create_gitignore (some ex) = ex ++ t) := by
  by_cases h : isSubstr claudeMarker ex = true
  · left
    exact ⟨h, by simp [create_gitignore, h]⟩
  · right
    have h2 : isSubstr claudeMarker ex = false := by simpa using h
    refine ⟨h2, strOf "\n" ++ gitignore_content, by decide, ?_⟩
    rw [← List.append_assoc]
    simp [create_gitignore, h2]

lemma lines_create_claude_md (cfg : Config) :
    splitChar '\n' (create_claude_md cfg) = (mdSlots cfg).flatMap (splitChar '\n') := by
  have hsep : strOf "\n" = ['\n'] := rfl
  show splitChar '\n' (pyJoin (strOf "\n") (mdSlots cfg)) = (mdSlots cfg).flatMap (splitChar '\n')
  rw [hsep]
  exact splitChar_pyJoin '\n' (mdSlots cfg) (by simp [mdSlots])

/-- The first line of the rendered document that starts with the Domains
marker is the Technology Stack entry, provided the configuration fields
that are rendered before it contain no newline. -/
lemma find_domains_line (cfg : Config)
    (h2 : ∀ d ∈ cfg.domains, ('\n') ∉ d.data)
    (h3 : ('\n') ∉ cfg.name.data)
    (h4 : ('\n') ∉ cfg.type.data)
    (h5 : ('\n') ∉ (cfg.description.getD defaultDescription).data) :
    (splitChar '\n' (create_claude_md cfg)).find? (fun l => leadsWith markerL l) =
      some (markerL ++ pyJoin (strOf ", ") (cfg.domains.map String.data)) := by
  have m4 : ('\n') ∉ strOf "**Name**: " ++ cfg.name.data := by
    intro hm
    rcases List.mem_append.mp hm with hA | hB
    · revert hA
      decide
    · exact h3 hB
  have m5 : ('\n') ∉ strOf "**Type**: " ++ cfg.type.data := by
    intro hm
    rcases List.mem_append.mp hm with hA | hB
    · revert hA
      decide
    · exact h4 hB
  have m6 : ('\n') ∉ strOf "**Description**: " ++ (cfg.description.getD defaultDescription).data := by
    intro hm
    rcases List.mem_append.mp hm with hA | hB
    · revert hA
      decide
    · exact h5 hB
  have m9 : ('\n') ∉ markerL ++ pyJoin (strOf ", ") (cfg.domains.map String.data) := by
    intro hm
    rcases List.mem_append.mp hm with hA | hB
    · revert hA
      decide
    · rcases mem_pyJoin _ _ _ hB with hs | ⟨l, hl, hc⟩
      · revert hs
        decide
      · rcases List.mem_map.mp hl with ⟨d, hd, rfl⟩
        exact h2 d hd hc
  have p4 : ¬ (fun l => leadsWith markerL l) (strOf "**Name**: " ++ cfg.name.data) = true := by
    intro hp
    have := leadsWith_of_append markerL (strOf "**Name**: ") cfg.name.data hp
    revert this
    decide
  have p5 : ¬ (fun l => leadsWith markerL l) (strOf "**Type**: " ++ cfg.type.data) = true := by
    intro hp
    have := leadsWith_of_append markerL (strOf "**Type**: ") cfg.type.data hp
    revert this
    decide
  have p6 : ¬ (fun l => leadsWith markerL l)
      (strOf "**Description**: " ++ (cfg.description.getD defaultDescription).data) = true := by
    intro hp
    have := leadsWith_of_append markerL (strOf "**Description**: ")
      (cfg.description.getD defaultDescription).data hp
    revert this
    decide
  rw [lines_create_claude_md]
  simp only [mdSlots, List.flatMap_cons]
  rw [splitChar_eq_single '\n' _ m4, splitChar_eq_single '\n' _ m5, splitChar_eq_single '\n' _ m6,
    splitChar_eq_single '\n' _ m9]
  rw [show splitChar '\n' (strOf "# Claude Code Project Context") =
      [strOf "# Claude Code Project Context"] from by decide]
  rw [show splitChar '\n' ([] : Str) = [[]] from by decide]
  rw [show splitChar '\n' (strOf "## Project Overview") = [strOf "## Project Overview"] from by
    decide]
  rw [show splitChar '\n' (strOf "## Technology Stack") = [strOf "## Technology Stack"] from by
    decide]
  simp only [List.singleton_append, List.cons_append, List.nil_append]
  rw [List.find?_cons_of_neg _ (by decide), List.find?_cons_of_neg _ (by decide),
    List.find?_cons_of_neg _ (by decide), List.find?_cons_of_neg _ p4,
    List.find?_cons_of_neg _ p5, List.find?_cons_of_neg _ p6,
    List.find?_cons_of_neg _ (by decide), List.find?_cons_of_neg _ (by decide)]
  exact List.find?_cons_of_pos _ (leadsWith_append_self markerL _)

/-- C2 (amended): rendering with create_claude_md and re-parsing the
Domains line recovers the domain list, for configurations whose domain
names contain no comma and no newline and whose name, type, and rendered
description contain no newline. -/
theorem claim_C2 (cfg : Config)
    (h1 : cfg.domains ≠ [])
    (h2 : ∀ d ∈ cfg.domains, (',') ∉ d.data ∧ ('\n') ∉ d.data)
    (h3 : ('\n') ∉ cfg.name.data)
    (h4 : ('\n') ∉ cfg.type.data)
    (h5 : ('\n') ∉ (cfg.description.getD defaultDescription).data) :
    parse_domains (create_claude_md cfg) = some cfg.domains := by
  have hfind := find_domains_line cfg (fun d hd => (h2 d hd).2) h3 h4 h5
  show (match (splitChar '\n' (create_claude_md cfg)).find? (fun l => leadsWith markerL l) with
    | none => none
    | some l => some ((splitCommaSpace (l.drop markerL.length)).map (fun w => (⟨w⟩ : String)))) =
    some cfg.domains
  rw [hfind]
  show some ((splitCommaSpace ((markerL ++
    pyJoin (strOf ", ") (cfg.domains.map String.data)).drop markerL.length)).map
      (fun w => (⟨w⟩ : String))) = some cfg.domains
  rw [List.drop_left]
  rw [joinCS_roundtrip (cfg.domains.map String.data) (by simpa using h1)
    (fun l hl => by
      rcases List.mem_map.mp hl with ⟨d, hd, rfl⟩
      exact (h2 d hd).1)]
  rw [List.map_map]
  have hid : ((fun w => (⟨w⟩ : String)) ∘ String.data) = id := funext fun s => rfl
  rw [hid, List.map_id]

def cfgNl : Config := { name := "n", type := "t", domains := ["a\nb"], description := none }

def cfgInj : Config :=
  { name := "x\n**Domains**: p, q", type := "t", domains := ["r"], description := none }

/-- C2 counterexample: two configurations with nonempty, comma-free domain
lists for which render-then-reparse does not return the original list: one
whose single domain name contains a newline, and one whose project name
injects a line that starts with the Domains marker before the real one. -/
theorem claim_C2_counterexample :
    (cfgNl.domains ≠ [] ∧ (∀ d ∈ cfgNl.domains, (',') ∉ d.data) ∧
      parse_domains (create_claude_md cfgNl) ≠ some cfgNl.domains) ∧
    (cfgInj.domains ≠ [] ∧ (∀ d ∈ cfgInj.domains, (',') ∉ d.data) ∧
      parse_domains (create_claude_md cfgInj) ≠ some cfgInj.domains) := by
  exact ⟨⟨by decide, by decide, by decide⟩, ⟨by decide, by decide, by decide⟩⟩

/-- C2 witness: the amended round trip at a concrete configuration. -/
theorem claim_C2_witness :
    parse_domains (create_claude_md (nonInteractiveConfig "demo" "git,python" none)) =
      some (nonInteractiveConfig "demo" "git,python" none).domains :=
  claim_C2 (nonInteractiveConfig "demo" "git,python" none) (by decide) (by decide) (by decide)
    (by decide) (by decide)

/-- C10: fetch_file is total at its interface: it returns the boolean
conjunction of the success of the two steps of its body for every
environment, and when directory creation succeeded but the download
failed it returns False while the creation of the parent directories has
already happened. -/
theorem claim_C10 (env env2 : Env) (base_url p d : String)
    (hmk : env.mkdirOk (parentOf d) = true) (hq : env.fetchOk p = false) :
    ((fetch_file env2 base_url p d).1 = (env2.mkdirOk (parentOf d) && env2.fetchOk p)) ∧
    fetch_file env base_url p d = (false, [Ev.mkdirP (parentOf d), Ev.fetchFail p]) ∧
    Ev.mkdirP (parentOf d) ∈ (fetch_file env base_url p d).2 := by
  refine ⟨?_, ?_, ?_⟩
  · by_cases h1 : env2.mkdirOk (parentOf d) = true
    · by_cases h2 : env2.fetchOk p = true
      · simp [fetch_file, fetchBody, h1, h2]
      · simp [fetch_file, fetchBody, h1, Bool.eq_false_iff.mpr h2]
    · simp [fetch_file, fetchBody, Bool.eq_false_iff.mpr h1]
  · simp [fetch_file, fetchBody, hmk, hq]
  · simp [fetch_file, fetchBody, hmk, hq]

def envFail : Env :=
  { mkdirOk := fun _ => true
  , fetchOk := fun _ => false
  , manifest := fun _ => none
  , hooksDirExists := false
  , hookFiles := [] }

/-- C10 witness: a concrete environment where every download fails. -/
theorem claim_C10_witness :
    ((fetch_file envFail "b" "p" "a/b.txt").1 =
      (envFail.mkdirOk (parentOf "a/b.txt") && envFail.fetchOk "p")) ∧
    fetch_file envFail "b" "p" "a/b.txt" =
      (false, [Ev.mkdirP (parentOf "a/b.txt"), Ev.fetchFail "p"]) ∧
    Ev.mkdirP (parentOf "a/b.txt") ∈ (fetch_file envFail "b" "p" "a/b.txt").2 :=
  claim_C10 envFail envFail "b" "p" "a/b.txt" rfl rfl

/-- C7: on a successful manifest fetch, apply_domain performs exactly one
fetch per file name listed under each destination directory of the files
field, with source path domains/domain/dest_dir/file_name after the
str.replace that collapses double slashes, and destination
project_root/dest_dir/file_name; and a successful fetch downloads from
the base URL joined with the source path. -/
theorem claim_C7 (env : Env) (base_url project_root domain : String) (m : Manifest)
    (q dd : String)
    (hm : env.manifest domain = some m)
    (hmk : env.mkdirOk (parentOf dd) = true) (hq : env.fetchOk q = true) :
    apply_domain env base_url project_root domain = (true,
      m.files.flatMap (fun pr => pr.2.flatMap (fun file_name =>
        (fetch_file env base_url
          (pyReplace ("domains/" ++ domain ++ "/" ++ pr.1 ++ "/" ++ file_name) "//" "/")
          (pathJoin (pathJoin project_root pr.1) file_name)).2))) ∧
    fetch_file env base_url q dd =
      (true, [Ev.mkdirP (parentOf dd), Ev.download (base_url ++ "/" ++ q) dd]) := by
  constructor
  · simp [apply_domain, fetch_domain_manifest, hm]
  · simp [fetch_file, fetchBody, hmk, hq]

def envOkPython : Env :=
  { mkdirOk := fun _ => true
  , fetchOk := fun _ => true
  , manifest := fun d => if d = "python" then some ⟨[("tests", ["conftest.py"])]⟩ else none
  , hooksDirExists := true
  , hookFiles := [] }

/-- C7 witness: a concrete environment and manifest. -/
theorem claim_C7_witness :
    apply_domain envOkPython "https://x" "/r" "python" = (true,
      (Manifest.mk [("tests", ["conftest.py"])]).files.flatMap (fun pr =>
        pr.2.flatMap (fun file_name =>
          (fetch_file envOkPython "https://x"
            (pyReplace ("domains/" ++ "python" ++ "/" ++ pr.1 ++ "/" ++ file_name) "//" "/")
            (pathJoin (pathJoin "/r" pr.1) file_name)).2))) ∧
    fetch_file envOkPython "https://x" "domains/python/tests/conftest.py" "/r/tests/conftest.py" =
      (true, [Ev.mkdirP (parentOf "/r/tests/conftest.py"),
        Ev.download ("https://x" ++ "/" ++ "domains/python/tests/conftest.py")
          "/r/tests/conftest.py"]) :=
  claim_C7 envOkPython "https://x" "/r" "python" (Manifest.mk [("tests", ["conftest.py"])])
    "domains/python/tests/conftest.py" "/r/tests/conftest.py" (by decide) rfl rfl

/-- C5: setup_project proceeds in program order: the marker directory,
then the four fixed core files fetched to their remote paths with the
leading core/ removed, then each requested domain in order, then the
context document followed by the ignore file, then the chmod pass over
the hook scripts. -/
theorem claim_C5 (env : Env) (base_url project_root : String) (cfg : Config) :
    setup_project env base_url project_root cfg =
      [Ev.mkdirP (pathJoin project_root ".claude")] ++
      ((fetch_file env base_url "core/.claude/settings.json"
          (pathJoin project_root ".claude/settings.json")).2 ++
        (fetch_file env base_url "core/.claude/hooks/pre-tool-use-safety.py"
          (pathJoin project_root ".claude/hooks/pre-tool-use-safety.py")).2 ++
        (fetch_file env base_url "core/.claude/hooks/project-boundary.py"
          (pathJoin project_root ".claude/hooks/project-boundary.py")).2 ++
        (fetch_file env base_url "core/.claude/commands/help.md"
          (pathJoin project_root ".claude/commands/help.md")).2) ++
      cfg.domains.flatMap (fun d => (apply_domain env base_url project_root d).2) ++
      [Ev.writeClaudeMd, Ev.writeGitignore] ++
      (if env.hooksDirExists then env.hookFiles.map (fun f => Ev.chmod f 0o755) else []) := by
  have e1 : pyReplace "core/.claude/settings.json" "core/" "" = ".claude/settings.json" := by
    decide
  have e2 : pyReplace "core/.claude/hooks/pre-tool-use-safety.py" "core/" "" =
      ".claude/hooks/pre-tool-use-safety.py" := by decide
  have e3 : pyReplace "core/.claude/hooks/project-boundary.py" "core/" "" =
      ".claude/hooks/project-boundary.py" := by decide
  have e4 : pyReplace "core/.claude/commands/help.md" "core/" "" = ".claude/commands/help.md" := by
    decide
  simp only [setup_project, coreSeg, core_files, domainsSeg, chmodSeg, List.flatMap_cons,
    List.flatMap_nil, List.append_nil, e1, e2, e3, e4]
  simp [List.append_assoc]

lemma forall2_refl_ev {R : Ev → Ev → Prop} (hR : ∀ e, R e e) (l : List Ev) :
    List.Forall₂ R l l :=
  List.forall₂_same.mpr (fun x _ => hR x)

lemma forall2_append_ev {R : Ev → Ev → Prop} {l1 l2 u1 u2 : List Ev}
    (h1 : List.Forall₂ R l1 l2) (h2 : List.Forall₂ R u1 u2) :
    List.Forall₂ R (l1 ++ u1) (l2 ++ u2) := by
  induction h1 with
  | nil => exact h2
  | cons hx _ ih => exact List.Forall₂.cons hx ih

lemma forall2_flatMap_ev {α : Type} {R : Ev → Ev → Prop} (l : List α) (f g : α → List Ev)
    (h : ∀ x ∈ l, List.Forall₂ R (f x) (g x)) :
    List.Forall₂ R (l.flatMap f) (l.flatMap g) := by
  induction l with
  | nil => exact List.Forall₂.nil
  | cons x xs ih =>
    simp only [List.flatMap_cons]
    exact forall2_append_ev (h x (List.mem_cons_self x xs))
      (ih (fun y hy => h y (List.mem_cons_of_mem x hy)))

lemma fetchDelta_refl (base_url p : String) (e : Ev) : FetchDelta base_url p e e := Or.inl rfl

lemma fetch_file_congr (env env2 : Env) (base_url q dd : String)
    (hmk : env2.mkdirOk = env.mkdirOk) (hfq : env2.fetchOk q = env.fetchOk q) :
    fetch_file env2 base_url q dd = fetch_file env base_url q dd := by
  simp [fetch_file, fetchBody, hmk, hfq]

lemma fetch_file_delta (env env2 : Env) (base_url p q dd : String)
    (hmk : env2.mkdirOk = env.mkdirOk)
    (hfq : ∀ x, x ≠ p → env2.fetchOk x = env.fetchOk x) :
    List.Forall₂ (FetchDelta base_url p)
      (fetch_file env base_url q dd).2 (fetch_file env2 base_url q dd).2 := by
  by_cases hq : q = p
  · subst hq
    by_cases h1 : env.mkdirOk (parentOf dd) = true
    · have h1b : env2.mkdirOk (parentOf dd) = true := by rw [hmk]; exact h1
      by_cases h2 : env.fetchOk q = true
      · by_cases h3 : env2.fetchOk q = true
        · rw [fetch_file_congr env env2 base_url q dd hmk (by rw [h3, h2])]
          exact forall2_refl_ev (fetchDelta_refl base_url q) _
        · have h3b : env2.fetchOk q = false := Bool.eq_false_iff.mpr h3
          simp only [fetch_file, fetchBody, h1, h1b, h2, h3b, if_true, if_false,
            Bool.false_eq_true, List.nil_append]
          refine List.Forall₂.cons (Or.inl rfl) (List.Forall₂.cons (Or.inr ⟨dd, ?_, ?_⟩)
            List.Forall₂.nil)
          · exact Or.inl rfl
          · exact Or.inr rfl
      · have h2b : env.fetchOk q = false := Bool.eq_false_iff.mpr h2
        by_cases h3 : env2.fetchOk q = true
        · simp only [fetch_file, fetchBody, h1, h1b, h2b, h3, if_true, if_false,
            Bool.false_eq_true, List.nil_append]
          refine List.Forall₂.cons (Or.inl rfl) (List.Forall₂.cons (Or.inr ⟨dd, ?_, ?_⟩)
            List.Forall₂.nil)
          · exact Or.inr rfl
          · exact Or.inl rfl
        · rw [fetch_file_congr env env2 base_url q dd hmk
            (by rw [Bool.eq_false_iff.mpr h3, h2b])]
          exact forall2_refl_ev (fetchDelta_refl base_url q) _
    · have h1b : env2.mkdirOk (parentOf dd) = false := by
        rw [hmk]
        exact Bool.eq_false_iff.mpr h1
      have h1c : env.mkdirOk (parentOf dd) = false := Bool.eq_false_iff.mpr h1
      simp only [fetch_file, fetchBody, h1b, h1c, Bool.false_eq_true, if_false,
        List.nil_append]
      exact forall2_refl_ev (fetchDelta_refl base_url q) _
  · rw [fetch_file_congr env env2 base_url q dd hmk (hfq q hq)]
    exact forall2_refl_ev (fetchDelta_refl base_url p) _

lemma apply_domain_delta (env env2 : Env) (base_url project_root p d : String)
    (hmk : env2.mkdirOk = env.mkdirOk)
    (hman : env2.manifest = env.manifest)
    (hfq : ∀ x, x ≠ p → env2.fetchOk x = env.fetchOk x) :
    List.Forall₂ (FetchDelta base_url p)
      (apply_domain env base_url project_root d).2
      (apply_domain env2 base_url project_root d).2 := by
  simp only [apply_domain, fetch_domain_manifest, hman]
  cases env.manifest d with
  | none => exact forall2_refl_ev (fetchDelta_refl base_url p) _
  | some m =>
    refine forall2_flatMap_ev m.files _ _ (fun pr _ => ?_)
    refine forall2_flatMap_ev pr.2 _ _ (fun file_name _ => ?_)
    exact fetch_file_delta env env2 base_url p _ _ hmk hfq

lemma setup_project_delta (env env2 : Env) (base_url project_root p : String) (cfg : Config)
    (hmk : env2.mkdirOk = env.mkdirOk)
    (hman : env2.manifest = env.manifest)
    (hfq : ∀ x, x ≠ p → env2.fetchOk x = env.fetchOk x)
    (hhd : env2.hooksDirExists = env.hooksDirExists)
    (hhf : env2.hookFiles = env.hookFiles) :
    List.Forall₂ (FetchDelta base_url p)
      (setup_project env base_url project_root cfg)
      (setup_project env2 base_url project_root cfg) := by
  simp only [setup_project]
  refine forall2_append_ev (forall2_append_ev (forall2_append_ev (forall2_append_ev
    (forall2_refl_ev (fetchDelta_refl base_url p) _) ?_) ?_)
    (forall2_refl_ev (fetchDelta_refl base_url p) _)) ?_
  · simp only [coreSeg]
    exact forall2_flatMap_ev core_files _ _
      (fun fp _ => fetch_file_delta env env2 base_url p _ _ hmk hfq)
  · simp only [domainsSeg]
    exact forall2_flatMap_ev cfg.domains _ _
      (fun d _ => apply_domain_delta env env2 base_url project_root p d hmk hman hfq)
  · simp only [chmodSeg, hhd, hhf]
    exact forall2_refl_ev (fetchDelta_refl base_url p) _

lemma fetch_file_congr_all (env env2 : Env)
    (hmk : env2.mkdirOk = env.mkdirOk) (hf : env2.fetchOk = env.fetchOk) :
    fetch_file env2 = fetch_file env :=
  funext fun b => funext fun q => funext fun dd =>
    fetch_file_congr env env2 b q dd hmk (by rw [hf])

lemma setup_dropManifest (env : Env) (base_url project_root d0 : String) (cfg : Config) :
    setup_project (dropManifestAt env d0) base_url project_root cfg =
      [Ev.mkdirP (pathJoin project_root ".claude")] ++ coreSeg env base_url project_root ++
      cfg.domains.flatMap (fun d => if d = d0 then [Ev.manifestFail d0]
        else (apply_domain env base_url project_root d).2) ++
      [Ev.writeClaudeMd, Ev.writeGitignore] ++ chmodSeg env := by
  have hff : fetch_file (dropManifestAt env d0) = fetch_file env :=
    fetch_file_congr_all env (dropManifestAt env d0) rfl rfl
  have hcore : coreSeg (dropManifestAt env d0) base_url project_root =
      coreSeg env base_url project_root := by
    simp only [coreSeg, hff]
  have hchmod : chmodSeg (dropManifestAt env d0) = chmodSeg env := rfl
  have hdom : ∀ d, (apply_domain (dropManifestAt env d0) base_url project_root d).2 =
      (if d = d0 then [Ev.manifestFail d0]
        else (apply_domain env base_url project_root d).2) := by
    intro d
    by_cases hd : d = d0
    · subst hd
      simp [apply_domain, fetch_domain_manifest, dropManifestAt]
    · have hm : (dropManifestAt env d0).manifest d = env.manifest d := by
        simp [dropManifestAt, hd]
      rw [if_neg hd]
      simp only [apply_domain, fetch_domain_manifest, hm, hff]
  simp only [setup_project, domainsSeg, hcore, hchmod]
  simp only [hdom]

/-- C1: a single failed file fetch does not abort a setup run: the traces
with and without that failure agree except at the events of fetching that
one path, and the context document and ignore file are still written; a
failed manifest fetch makes apply_domain return False with no file
fetches, and removing one manifest from the environment leaves the
segments of every other domain and all other steps unchanged. -/
theorem claim_C1 (env : Env) (base_url project_root : String) (cfg : Config) (p d0 : String)
    (hd0 : env.manifest d0 = none) :
    apply_domain env base_url project_root d0 = (false, [Ev.manifestFail d0]) ∧
    List.Forall₂ (FetchDelta base_url p)
      (setup_project env base_url project_root cfg)
      (setup_project (failFetchAt env p) base_url project_root cfg) ∧
    Ev.writeClaudeMd ∈ setup_project (failFetchAt env p) base_url project_root cfg ∧
    Ev.writeGitignore ∈ setup_project (failFetchAt env p) base_url project_root cfg ∧
    setup_project (dropManifestAt env d0) base_url project_root cfg =
      [Ev.mkdirP (pathJoin project_root ".claude")] ++ coreSeg env base_url project_root ++
      cfg.domains.flatMap (fun d => if d = d0 then [Ev.manifestFail d0]
        else (apply_domain env base_url project_root d).2) ++
      [Ev.writeClaudeMd, Ev.writeGitignore] ++ chmodSeg env := by
  refine ⟨?_, ?_, ?_, ?_, setup_dropManifest env base_url project_root d0 cfg⟩
  · simp [apply_domain, fetch_domain_manifest, hd0]
  · exact setup_project_delta env (failFetchAt env p) base_url project_root p cfg rfl rfl
      (fun x hx => by simp [failFetchAt, hx]) rfl rfl
  · simp [setup_project]
  · simp [setup_project]

def envC1 : Env :=
  { mkdirOk := fun _ => true
  , fetchOk := fun _ => true
  , manifest := fun d => if d = "python" then some ⟨[("tests", ["conftest.py"])]⟩ else none
  , hooksDirExists := true
  , hookFiles := ["pre-tool-use-safety.py"] }

def cfgC1 : Config :=
  { name := "demo", type := "Custom", domains := ["git", "python"], description := none }

/-- C1 witness: a concrete environment, a failing path, and a missing
manifest. -/
theorem claim_C1_witness :
    apply_domain envC1 "https://x" "/r" "aws" = (false, [Ev.manifestFail "aws"]) ∧
    List.Forall₂ (FetchDelta "https://x" "domains/python/tests/conftest.py")
      (setup_project envC1 "https://x" "/r" cfgC1)
      (setup_project (failFetchAt envC1 "domains/python/tests/conftest.py") "https://x" "/r"
        cfgC1) ∧
    Ev.writeClaudeMd ∈ setup_project (failFetchAt envC1 "domains/python/tests/conftest.py")
      "https://x" "/r" cfgC1 ∧
    Ev.writeGitignore ∈ setup_project (failFetchAt envC1 "domains/python/tests/conftest.py")
      "https://x" "/r" cfgC1 ∧
    setup_project (dropManifestAt envC1 "aws") "https://x" "/r" cfgC1 =
      [Ev.mkdirP (pathJoin "/r" ".claude")] ++ coreSeg envC1 "https://x" "/r" ++
      cfgC1.domains.flatMap (fun d => if d = "aws" then [Ev.manifestFail "aws"]
        else (apply_domain envC1 "https://x" "/r" d).2) ++
      [Ev.writeClaudeMd, Ev.writeGitignore] ++ chmodSeg envC1 :=
  claim_C1 envC1 "https://x" "/r" cfgC1 "domains/python/tests/conftest.py" "aws" (by decide)

/-- C6: the interactive prompt sequence runs exactly when the interactive
flag is passed or one of name and domains is absent or empty; with both
flags supplied and no interactive flag the configuration comes from the
flags alone, with the type defaulting to Custom. -/
theorem claim_C6 (i : Bool) (n d : Option String) (i2 : Bool) (n2 d2 t : Option String)
    (defaultName : String) (ui : UI) (nm dm : String)
    (hri : runs_interactive i2 n2 d2 = true) (hn : nm ≠ "") (hd : dm ≠ "") :
    (runs_interactive i n d = true ↔
      (i = true ∨ n = none ∨ n = some "" ∨ d = none ∨ d = some "")) ∧
    bootstrap_main i2 n2 d2 t defaultName ui = interactive_setup defaultName ui ∧
    bootstrap_main false (some nm) (some dm) t defaultName ui = nonInteractiveConfig nm dm t ∧
    (nonInteractiveConfig nm dm none).type = "Custom" ∧
    (nonInteractiveConfig nm dm (some "")).type = "Custom" := by
  refine ⟨?_, ?_, ?_, rfl, by simp [nonInteractiveConfig, pyOr]⟩
  · cases n with
    | none => simp [runs_interactive]
    | some a =>
      cases d with
      | none => simp [runs_interactive]
      | some b =>
        simp only [runs_interactive, Bool.or_eq_true, beq_iff_eq]
        constructor
        · rintro ((h | h) | h) <;> simp [h]
        · rintro (h | h | h | h | h) <;> simp_all
  · cases n2 with
    | none => rfl
    | some a =>
      cases d2 with
      | none => rfl
      | some b =>
        simp only [runs_interactive] at hri
        simp [bootstrap_main, hri]
  · have hcond : ¬ (false || (nm == "") || (dm == "")) = true := by
      simp [hn, hd]
    show (if false || (nm == "") || (dm == "") then interactive_setup defaultName ui
      else nonInteractiveConfig nm dm t) = nonInteractiveConfig nm dm t
    rw [if_neg hcond]

def uiW : UI :=
  { nameInput := ""
  , typeChoice := ⟨0, by decide⟩
  , responses := fun _ => ""
  , descInput := "" }

/-- C6 witness: concrete flag combinations on both branches. -/
theorem claim_C6_witness :
    (runs_interactive false none (some "x") = true ↔
      (false = true ∨ (none : Option String) = none ∨ (none : Option String) = some "" ∨
        (some "x" : Option String) = none ∨ (some "x" : Option String) = some "")) ∧
    bootstrap_main false none (some "y") none "cwd" uiW = interactive_setup "cwd" uiW ∧
    bootstrap_main false (some "demo") (some "git,python") none "cwd" uiW =
      nonInteractiveConfig "demo" "git,python" none ∧
    (nonInteractiveConfig "demo" "git,python" none).type = "Custom" ∧
    (nonInteractiveConfig "demo" "git,python" (some "")).type = "Custom" :=
  claim_C6 false none (some "x") false none (some "y") none "cwd" uiW "demo" "git,python" rfl
    (by decide) (by decide)

lemma interactive_domains_ok (defaultName : String) (ui : UI) :
    (interactive_setup defaultName ui).domains.head? = some "git" ∧
    (interactive_setup defaultName ui).domains.count "git" = 1 := by
  constructor
  · rfl
  · show (("git" :: (available_domains.drop 1).filter (acceptsDomain ui)).count "git") = 1
    rw [List.count_cons_self]
    have hz : ((available_domains.drop 1).filter (acceptsDomain ui)).count "git" = 0 := by
      refine List.count_eq_zero.mpr ?_
      intro hmem
      have := List.mem_of_mem_filter hmem
      revert this
      decide
    rw [hz]

lemma noninteractive_domains_ok (nm dm : String) (t : Option String) :
    (nonInteractiveConfig nm dm t).domains.head? = some "git" ∧
    (nonInteractiveConfig nm dm t).domains.count "git" = 1 := by
  constructor
  · rfl
  · show (("git" :: (splitChar ',' dm.data).filterMap (fun d =>
      if pyStripL d = strOf "git" then none
      else some (⟨pyStripL d⟩ : String))).count "git") = 1
    rw [List.count_cons_self]
    have hz : ((splitChar ',' dm.data).filterMap (fun d =>
        if pyStripL d = strOf "git" then none
        else some (⟨pyStripL d⟩ : String))).count "git" = 0 := by
      refine List.count_eq_zero.mpr ?_
      intro hmem
      rcases List.mem_filterMap.mp hmem with ⟨a, _, ha⟩
      by_cases hc : pyStripL a = strOf "git"
      · rw [if_pos hc] at ha
        exact Option.noConfusion ha
      · rw [if_neg hc] at ha
        have : (⟨pyStripL a⟩ : String) = "git" := Option.some.inj ha
        exact hc (congrArg String.data this)
    rw [hz]

/-- C8: every configuration returned by the command-line entry point, on
either branch, has a domain list that starts with git and contains git
exactly once. -/
theorem claim_C8 (i : Bool) (n d t : Option String) (defaultName : String) (ui : UI) :
    (bootstrap_main i n d t defaultName ui).domains.head? = some "git" ∧
    (bootstrap_main i n d t defaultName ui).domains.count "git" = 1 := by
  cases n with
  | none => exact interactive_domains_ok defaultName ui
  | some a =>
    cases d with
    | none => exact interactive_domains_ok defaultName ui
    | some b =>
      show (if i || a == "" || b == "" then interactive_setup defaultName ui
        else nonInteractiveConfig a b t).domains.head? = some "git" ∧
        (if i || a == "" || b == "" then interactive_setup defaultName ui
          else nonInteractiveConfig a b t).domains.count "git" = 1
      by_cases hc : (i || a == "" || b == "") = true
      · rw [if_pos hc]
        exact interactive_domains_ok defaultName ui
      · rw [if_neg hc]
        exact noninteractive_domains_ok a b t

def uiC4 : UI :=
  { nameInput := ""
  , typeChoice := ⟨0, by decide⟩
  , responses := fun _ => ""
  , descInput := "" }

/-- C4: invoking the command line with name demo and domains git,python
takes the non-interactive branch, produces the domain list git, python
with the split git token filtered before git is prepended, and the
rendered document has a Domains line reading exactly git, python. -/
theorem claim_C4 :
    runs_interactive false (some "demo") (some "git,python") = false ∧
    bootstrap_main false (some "demo") (some "git,python") none "cwd" uiC4 =
      nonInteractiveConfig "demo" "git,python" none ∧
    (nonInteractiveConfig "demo" "git,python" none).domains = ["git", "python"] ∧
    (splitChar '\n' (create_claude_md (nonInteractiveConfig "demo" "git,python" none))).find?
      (fun l => leadsWith markerL l) = some (strOf "**Domains**: git, python") := by
  exact ⟨by decide, by decide, by decide, by decide⟩
